import Mathlib

/-!
Shallow embedding of `gitemails.py` (repository `git-emails`): a GitHub
crawl script that lists a user's or organization's repositories, walks each
repository's commit history, and writes author/committer identity rows to
CSV files.  Network I/O is modelled by scripting the server's responses as
explicit data (lists of pages, lists of responses, a `World` of account
contents); the functions below mirror the Python control flow over that
data.
-/

namespace GitEmails

/-- Embedding of `token_generator` (gitemails.py lines 12-15).  The Python
generator `while True: for token in token_list: yield token` yields, on its
k-th call (0-based), `token_list[k % len(token_list)]`; for an empty list it
never yields.  We embed it as the function from call index to the yielded
token. -/
def token_generator (token_list : List α) (k : Nat) : Option α :=
  token_list.get? (k % token_list.length)

/-- An HTTP response as seen by `get_api_response`: its status code, whether
the `X-RateLimit-Reset` header is present, the value of the
`X-RateLimit-Remaining` header when present, and the value of the
`Retry-After` header when present (the script never reads `Retry-After`,
but the field is carried so that claims about it can be stated). -/
structure ApiResponse where
  status : Nat
  hasRateLimitReset : Bool
  rateLimitRemaining : Option String
  retryAfter : Option Nat
deriving DecidableEq, Repr

/-- Outcome of `get_api_response` on a scripted response list: a returned
response, a raised HTTP error (`raise_for_status`), or `pending` when the
scripted responses ran out while the retry loop was still going. -/
inductive FetchOutcome where
  | ok (r : ApiResponse)
  | httpError (status : Nat)
  | pending
deriving DecidableEq, Repr

/-- Embedding of `get_api_response` (gitemails.py lines 21-46) over a
scripted list of successive responses for the same URL.  Each loop
iteration draws the next token from the rotator (`tokens` with position
`pos`; `none` models running without tokens).  A 200 is returned; a 403
with `X-RateLimit-Reset` present and `X-RateLimit-Remaining = "0"` sleeps
60 seconds and retries (both the token and the tokenless branch sleep the
same fixed 60s); anything else goes to `raise_for_status`, which raises
exactly on statuses >= 400 and otherwise falls through to the next loop
iteration.  Returns the outcome, the list of sleep durations performed,
and the token drawn for each request made. -/
def get_api_response (tokens : List String) (pos : Nat) :
    List ApiResponse → FetchOutcome × List Nat × List (Option String)
  | [] => (.pending, [], [])
  | r :: rest =>
    let tok := token_generator tokens pos
    if r.status = 200 then
      (.ok r, [], [tok])
    else if r.status = 403 ∧ r.hasRateLimitReset = true ∧
        r.rateLimitRemaining = some "0" then
      let out := get_api_response tokens (pos + 1) rest
      (out.1, 60 :: out.2.1, tok :: out.2.2)
    else if 400 ≤ r.status then
      (.httpError r.status, [], [tok])
    else
      let out := get_api_response tokens (pos + 1) rest
      (out.1, out.2.1, tok :: out.2.2)

/-- A raw entry of the repository-listing API, with the fields the script
reads. -/
structure RepoEntry where
  name : String
  html_url : String
  description : Option String
deriving DecidableEq, Repr

/-- The repository record built by the script (`repo_data` dict). -/
structure Repo where
  name : String
  url : String
  description : Option String
  owner : String
deriving DecidableEq, Repr

/-- The projection applied to each listing entry (gitemails.py lines
57-62 and 82-87): `owner` is set to the queried account name. -/
def projectRepo (account : String) (e : RepoEntry) : Repo :=
  { name := e.name, url := e.html_url, description := e.description,
    owner := account }

/-- Embedding of `get_repositories_for_user` (gitemails.py lines 48-71)
over the scripted sequence of pages the server returns for the paginated
listing URL: each iteration appends the projected entries of the current
page and follows the `next` link, i.e. moves to the next page, until no
`next` link remains (the last scripted page). -/
def get_repositories_for_user (username : String) :
    List (List RepoEntry) → List Repo
  | [] => []
  | page :: rest =>
      page.map (projectRepo username) ++ get_repositories_for_user username rest

/-- Embedding of `get_repositories_for_org` (gitemails.py lines 73-96);
identical to the user variant except for the endpoint, with `owner` set to
the organization name. -/
def get_repositories_for_org (orgname : String) :
    List (List RepoEntry) → List Repo
  | [] => []
  | page :: rest =>
      page.map (projectRepo orgname) ++ get_repositories_for_org orgname rest

/-- A commit of the commit-listing API, with the fields the script reads
(gitemails.py lines 110-121).  `commit.author` (the GitHub account linked
to the commit) may be absent — the inner `try` at lines 112-116 — which is
modelled by `authorLogin : Option String`.  The `commit.commit.*` git
metadata fields and `html_url` are modelled as always present; the broad
outer `except` (lines 138-141) that skips a commit lacking one of them is
outside this embedding, which considers the well-formed commits the claims
are about. -/
structure Commit where
  authorEmail : String
  authorName : String
  authorLogin : Option String
  committerEmail : String
  committerName : String
  html_url : String
deriving DecidableEq, Repr

/-- One data row written by `csv_writer.writerow` in
`get_emails_from_github_commits` (gitemails.py lines 127 and 134), with one
field per CSV column. -/
structure CsvRow where
  repoName : String
  repoUrl : String
  repoOwner : String
  ghUsername : String
  name : String
  role : String
  typ : String
  email : String
  commitUrl : String
  commitApi : String
deriving DecidableEq, Repr

/-- Python's substring test `'noreply' in email` (gitemails.py lines 124
and 131). -/
def containsNoreply (email : String) : Bool :=
  decide ("noreply".toList <:+: email.toList)

/-- Python's `str.lower()` (gitemails.py lines 126 and 133), modelled
character by character. -/
def pyLower (s : String) : String :=
  String.mk (s.toList.map Char.toLower)

/-- `author_gh_username` (gitemails.py lines 112-116): the commit author's
GitHub login when `commit['author']['login']` is present, else the literal
`"Not Found"`. -/
def authorGhUsername (c : Commit) : String :=
  match c.authorLogin with
  | some l => l
  | none => "Not Found"

/-- `email_author_pair` (gitemails.py line 119). -/
def authorPair (c : Commit) : String × String × String :=
  (authorGhUsername c, c.authorEmail, c.authorName)

/-- `email_committer_pair` (gitemails.py line 120): note the committer's
display name `commit['commit']['committer']['name']` fills both the
username slot and the name slot. -/
def committerPair (c : Commit) : String × String × String :=
  (c.committerName, c.committerEmail, c.committerName)

/-- The author data row (gitemails.py lines 126-127).  `commitApi` is the
commit-listing URL of the page the commit came from; this embedding keeps
the single base listing URL for it. -/
def mkAuthorRow (repo : Repo) (url : String) (c : Commit) : CsvRow :=
  { repoName := repo.name, repoUrl := repo.url, repoOwner := repo.owner,
    ghUsername := authorGhUsername c, name := c.authorName,
    role := if pyLower (authorGhUsername c) = pyLower repo.owner
            then "Owner" else "Contributor",
    typ := "Commit Author", email := c.authorEmail,
    commitUrl := c.html_url, commitApi := url }

/-- The committer data row (gitemails.py lines 133-134): both the
`GH Username` and `Name` columns receive `committer_username`, i.e. the
committer's display name. -/
def mkCommitterRow (repo : Repo) (url : String) (c : Commit) : CsvRow :=
  { repoName := repo.name, repoUrl := repo.url, repoOwner := repo.owner,
    ghUsername := c.committerName, name := c.committerName,
    role := if pyLower c.committerName = pyLower repo.owner
            then "Owner" else "Contributor",
    typ := "Commit Committer", email := c.committerEmail,
    commitUrl := c.html_url, commitApi := url }

/-- The state threaded through one call of
`get_emails_from_github_commits`: the per-repository seen set
`repo_emails`, the rows written so far to the CSV, the `commit_usernames`
list, and the global `unique_combos` set.  Python sets are modelled as
duplicate-free lists (insertion conses a new element only). -/
structure WalkState where
  repoEmails : List (String × String × String)
  rows : List CsvRow
  commitUsernames : List String
  uniqueCombos : List (String × String × String)
deriving DecidableEq, Repr

/-- `set.add`: insert unless already present. -/
def insertCombo (p : String × String × String)
    (s : List (String × String × String)) : List (String × String × String) :=
  if p ∈ s then s else p :: s

/-- The shared shape of the two write branches (gitemails.py lines
124-129 and 131-136): when the email's noreply flag `b` is false and the
pair `p` is not already in the per-repository seen set, add `p` to
`repo_emails`, write the row, and add `p` to `unique_combos`; otherwise do
nothing. -/
def maybeWrite (b : Bool) (p : String × String × String) (row : CsvRow)
    (s : WalkState) : WalkState :=
  if b = false ∧ p ∉ s.repoEmails then
    { s with repoEmails := p :: s.repoEmails,
             rows := s.rows ++ [row],
             uniqueCombos := insertCombo p s.uniqueCombos }
  else s

/-- The body of the `for commit in commits` loop (gitemails.py lines
108-136) for one commit: record the author login when present (line 114),
then the author branch (lines 124-129), then the committer branch (lines
131-136) on the state the author branch left. -/
def processCommit (repo : Repo) (url : String) (c : Commit)
    (s : WalkState) : WalkState :=
  let s0 : WalkState :=
    { s with commitUsernames := s.commitUsernames ++ c.authorLogin.toList }
  maybeWrite (containsNoreply c.committerEmail) (committerPair c)
    (mkCommitterRow repo url c)
    (maybeWrite (containsNoreply c.authorEmail) (authorPair c)
      (mkAuthorRow repo url c) s0)

/-- The commit walk from a given state: folds `processCommit` over the
commits in page order (the pagination of lines 103-146 only changes the
`url` bookkeeping recorded in the rows; the commits of all pages are
processed in sequence, here presented as one list). -/
def walkCommits (repo : Repo) (url : String) :
    List Commit → WalkState → WalkState
  | [], s => s
  | c :: cs, s => walkCommits repo url cs (processCommit repo url c s)

/-- The initial commit-listing URL for a repository (gitemails.py line
99). -/
def commitsUrl (repo : Repo) : String :=
  "https://api.github.com/repos/" ++ repo.owner ++ "/" ++ repo.name ++
    "/commits"

/-- Embedding of `get_emails_from_github_commits` (gitemails.py lines
98-148) on the scripted commit list of a repository: starts from the empty
`repo_emails` set and empty `commit_usernames` list (lines 100-101) and a
given incoming `unique_combos` set, processes every commit, and yields the
final state (the Python function returns `commit_usernames`; the rows and
set contents are its effects, all carried in `WalkState`). -/
def get_emails_from_github_commits (repo : Repo) (commits : List Commit)
    (uniqueCombos : List (String × String × String)) : WalkState :=
  walkCommits repo (commitsUrl repo) commits
    { repoEmails := [], rows := [], commitUsernames := [],
      uniqueCombos := uniqueCombos }

/-- The identity tuple of a written row: its (`GH Username`, `Email`,
`Name`) columns — exactly the pair inserted into `repo_emails` when the
row was written. -/
def rowTuple (r : CsvRow) : String × String × String :=
  (r.ghUsername, r.email, r.name)

/-- An API fetch performed by the script: a repository-listing request for
an account, or a commit-listing request for a repository. -/
inductive FetchReq where
  | repoList (account : String)
  | commitList (owner : String) (name : String)
deriving DecidableEq, Repr

/-- The scripted server contents a run reads: the (already projected)
repositories the user endpoint returns for each username, the
repositories the organization endpoint returns for each organization, and
the commit list of each repository (keyed by owner and name). -/
structure World where
  userRepos : String → List Repo
  orgRepos : String → List Repo
  repoCommits : String → String → List Commit

/-- The commit-listing fetches that walking a repository list performs:
one call of `get_emails_from_github_commits` per repository, in order
(gitemails.py lines 160-161, 213-214 and 223-224). -/
def walkAllFetches (repos : List Repo) : List FetchReq :=
  repos.map fun r => FetchReq.commitList r.owner r.name

/-- The `commit_usernames` list the commit walk of one repository returns
in `w`. -/
def repoCommitUsernames (w : World) (repo : Repo) : List String :=
  (get_emails_from_github_commits repo (w.repoCommits repo.owner repo.name)
    []).commitUsernames

/-- `new_usernames` at one level of `recursive_search` (gitemails.py lines
154-162): the set union of the commit-author logins returned by walking
every repository of every username of the level, modelled as the
duplicate-erased concatenation. -/
def levelNewUsernames (w : World) (usernames : List String) : List String :=
  ((usernames.map fun u =>
      ((w.userRepos u).map (repoCommitUsernames w)).flatten).flatten).eraseDups

/-- The fetches `recursive_search` (gitemails.py lines 150-164) performs:
nothing when `current_depth > depth`; otherwise, for each username of the
level, a repository-listing fetch followed by the commit-listing fetches
of its repositories, and then the recursive call at `current_depth + 1` on
the newly seen usernames. -/
def recursiveSearchFetches (w : World) (usernames : List String)
    (depth : Nat) (current : Nat) : List FetchReq :=
  if _h : depth < current then []
  else
    ((usernames.map fun u =>
        FetchReq.repoList u :: walkAllFetches (w.userRepos u)).flatten)
      ++ recursiveSearchFetches w (levelNewUsernames w usernames) depth
          (current + 1)
termination_by depth + 1 - current
decreasing_by omega

/-- The fetches `main` performs after the initial account's repositories
have been listed and walked, in `--user` mode (gitemails.py lines
218-232): the shared loop walks the already fetched `repositories` list
(no new fetch), and `recursive_search` runs only under the
`args.depth > 0` guard of line 231, starting from the initial username. -/
def mainExtraFetches (w : World) (user : String) (depth : Nat) :
    List FetchReq :=
  if 0 < depth then recursiveSearchFetches w [user] depth 0 else []

/-- All fetches of a `--user` run (gitemails.py lines 202-232): the
initial repository listing for the user, the commit listing of each of the
user's repositories from the shared loop at lines 223-224, then whatever
the depth-guarded recursive search adds. -/
def mainFetchesUserMode (w : World) (user : String) (depth : Nat) :
    List FetchReq :=
  (FetchReq.repoList user :: walkAllFetches (w.userRepos user))
    ++ mainExtraFetches w user depth

/-- The header row written before each walking phase (gitemails.py lines
212 and 222). -/
def headerRow : List String :=
  ["Repo Name", "Repo URL", "Repo Owner", "GH Username", "Name", "Role",
   "Type", "Email", "Commit URL", "Commit API URL"]

/-- The cell list `writerow` receives for a data row (gitemails.py lines
127 and 134). -/
def rowCells (r : CsvRow) : List String :=
  [r.repoName, r.repoUrl, r.repoOwner, r.ghUsername, r.name, r.role,
   r.typ, r.email, r.commitUrl, r.commitApi]

/-- The data rows one walk of a repository appends to the CSV file in `w`
(`repo_emails` starts empty on every call: gitemails.py line 100). -/
def repoWalkCells (w : World) (repo : Repo) : List (List String) :=
  ((get_emails_from_github_commits repo
      (w.repoCommits repo.owner repo.name) []).rows).map rowCells

/-- The rows one phase appends to `github-data-<org>.csv`: a header row,
then the walk rows of each organization repository in listing order.  This
is the shape of both the org block (gitemails.py lines 210-215) and the
shared loop (lines 220-224), which iterate over the same `repositories`
list. -/
def orgPhaseCells (w : World) (org : String) : List (List String) :=
  headerRow :: ((w.orgRepos org).map (repoWalkCells w)).flatten

/-- An `--org` mode run's observable output for claim C10: the fetches it
makes and the final contents of `github-data-<org>.csv`. -/
structure OrgRun where
  fetches : List FetchReq
  dataFile : List (List String)
deriving DecidableEq, Repr

/-- Embedding of `main` in `--org` mode with the default `--depth 0`
(gitemails.py lines 206-232): list the organization's repositories once;
the org block opens `github-data-<org>.csv` for append, writes a header
and walks every repository; then the shared code computes the same
filename (`args.user or args.org` is the org name), opens it for append
again, writes a second header and walks the same `repositories` list
again.  Both phases append, so the file holds the org-block rows followed
by the shared-loop rows. -/
def mainOrgMode (w : World) (org : String) : OrgRun :=
  let repositories := w.orgRepos org
  { fetches := FetchReq.repoList org ::
      (walkAllFetches repositories ++ walkAllFetches repositories),
    dataFile :=
      (headerRow :: (repositories.map (repoWalkCells w)).flatten)
        ++ (headerRow :: (repositories.map (repoWalkCells w)).flatten) }

/-- Claim C3 as stated by the spec: the Role column is `"Owner"` exactly
when the row's login (`GH Username` column) or its display name (`Name`
column) case-insensitively equals the repository's owner. -/
def roleClaim : Prop :=
  ∀ (repo : Repo) (commits : List Commit)
    (uc : List (String × String × String)) (r : CsvRow),
    r ∈ (get_emails_from_github_commits repo commits uc).rows →
    (r.role = "Owner" ↔
      (pyLower r.ghUsername = pyLower repo.owner ∨
        pyLower r.name = pyLower repo.owner))

/-- Claim C6's back-off as stated by the spec: on a 403 response with
`X-RateLimit-Remaining = "0"`, when the `Retry-After` header is present
the wait before the retry is its value. -/
def retryAfterClaim : Prop :=
  ∀ (tokens : List String) (pos : Nat) (r : ApiResponse)
    (rest : List ApiResponse) (t : Nat),
    r.status = 403 → r.rateLimitRemaining = some "0" →
    r.retryAfter = some t →
    ((get_api_response tokens pos (r :: rest)).2.1).head? = some t

/-- Claim C7 as stated by the spec: the commit walk returns the distinct
author logins — every observed author login is in the returned list and
the list has no duplicates. -/
def distinctUsernamesClaim : Prop :=
  ∀ (repo : Repo) (commits : List Commit)
    (uc : List (String × String × String)),
    (∀ c ∈ commits, ∀ l, c.authorLogin = some l →
      l ∈ (get_emails_from_github_commits repo commits uc).commitUsernames) ∧
    ((get_emails_from_github_commits repo commits uc).commitUsernames).Nodup

/-- Claim C8 as stated by the spec: the `GH Username` column of every
written row holds a GitHub login (an author login occurring in the walked
commits) or the literal `"Not Found"`, never anything else. -/
def usernameFieldClaim : Prop :=
  ∀ (repo : Repo) (commits : List Commit)
    (uc : List (String × String × String)) (r : CsvRow),
    r ∈ (get_emails_from_github_commits repo commits uc).rows →
    r.ghUsername = "Not Found" ∨ ∃ c ∈ commits, c.authorLogin = some r.ghUsername

/-- The walk invariant used for the per-row claims: every written row's
identity tuple is in the `repo_emails` seen set, every seen-set member is
the tuple of some written row, the written tuples are duplicate-free, and
every written row satisfies the per-row property `Q`. -/
def WalkInv (Q : CsvRow → Prop) (s : WalkState) : Prop :=
  (∀ r ∈ s.rows, rowTuple r ∈ s.repoEmails) ∧
  (∀ p ∈ s.repoEmails, ∃ r ∈ s.rows, rowTuple r = p) ∧
  (s.rows.map rowTuple).Nodup ∧
  (∀ r ∈ s.rows, Q r)

/-- A response that triggers the retry branch of `get_api_response`
(gitemails.py line 32): status 403, `X-RateLimit-Reset` present,
`X-RateLimit-Remaining` equal to `"0"`. -/
@[reducible]
def rateLimited (r : ApiResponse) : Prop :=
  r.status = 403 ∧ r.hasRateLimitReset = true ∧
    r.rateLimitRemaining = some "0"

/-- A concrete repository (owner `alice`) used to instantiate the
theorems at explicit inputs. -/
def sampleRepo : Repo :=
  { name := "widgets", url := "https://github.com/alice/widgets",
    description := none, owner := "alice" }

/-- A concrete well-formed commit: author login `bob` with a clean email,
committer hidden behind a GitHub noreply address. -/
def sampleCommit : Commit :=
  { authorEmail := "bob@example.com", authorName := "Bob",
    authorLogin := some "bob",
    committerEmail := "bob@users.noreply.github.com",
    committerName := "Bob",
    html_url := "https://github.com/alice/widgets/commit/1" }

/-- A concrete commit whose author login (`bob`) differs from the
repository owner while the author display name (`Alice`) equals it
case-insensitively; the committer is hidden behind a noreply address. -/
def sampleCommitNameAlice : Commit :=
  { authorEmail := "bob@example.com", authorName := "Alice",
    authorLogin := some "bob",
    committerEmail := "bob@users.noreply.github.com",
    committerName := "Bob",
    html_url := "https://github.com/alice/widgets/commit/2" }

/-- A concrete commit whose committer display name `Jane Doe` is free
text (it is no GitHub login of the walk and not `"Not Found"`); the
author email is a noreply address. -/
def sampleCommitJane : Commit :=
  { authorEmail := "bob@users.noreply.github.com", authorName := "Bob",
    authorLogin := some "bob",
    committerEmail := "jane@example.com",
    committerName := "Jane Doe",
    html_url := "https://github.com/alice/widgets/commit/3" }

/-- A concrete server world: one repository owned by `alice` whose
commit listing holds one commit. -/
def sampleWorld : World :=
  { userRepos := fun _ => [sampleRepo],
    orgRepos := fun _ => [sampleRepo],
    repoCommits := fun _ _ => [sampleCommit] }

theorem rowTuple_mkAuthorRow (repo : Repo) (url : String) (c : Commit) :
    rowTuple (mkAuthorRow repo url c) = authorPair c := rfl

theorem rowTuple_mkCommitterRow (repo : Repo) (url : String) (c : Commit) :
    rowTuple (mkCommitterRow repo url c) = committerPair c := rfl

theorem maybeWrite_inv {Q : CsvRow → Prop} {b : Bool}
    {p : String × String × String} {row : CsvRow} {s : WalkState}
    (hT : rowTuple row = p) (hQ : b = false → Q row) (h : WalkInv Q s) :
    WalkInv Q (maybeWrite b p row s) := by
  obtain ⟨h1, h2, h3, h4⟩ := h
  unfold maybeWrite
  split
  case isTrue hc =>
    refine ⟨?_, ?_, ?_, ?_⟩
    · intro r hr
      rcases List.mem_append.1 hr with hr | hr
      · exact List.mem_cons_of_mem _ (h1 r hr)
      · rcases List.mem_singleton.1 hr with rfl
        rw [hT]; exact List.mem_cons_self _ _
    · intro q hq
      rcases List.mem_cons.1 hq with rfl | hq
      · exact ⟨row, List.mem_append_right _ (List.mem_singleton_self _), hT⟩
      · obtain ⟨r, hr, hrt⟩ := h2 q hq
        exact ⟨r, List.mem_append_left _ hr, hrt⟩
    · rw [List.map_append]
      have hp : p ∉ s.rows.map rowTuple := by
        intro hmem
        obtain ⟨r, hr, hrt⟩ := List.mem_map.1 hmem
        exact hc.2 (hrt ▸ h1 r hr)
      simp only [List.map_cons, List.map_nil]
      rw [List.nodup_append]
      refine ⟨h3, List.nodup_singleton _, ?_⟩
      intro q hq hq1
      rcases List.mem_singleton.1 hq1 with rfl
      exact hp (hT ▸ hq)
    · intro r hr
      rcases List.mem_append.1 hr with hr | hr
      · exact h4 r hr
      · rcases List.mem_singleton.1 hr with rfl
        exact hQ hc.1
  case isFalse => exact ⟨h1, h2, h3, h4⟩

theorem processCommit_inv {Q : CsvRow → Prop} {repo : Repo} {url : String}
    {c : Commit} {s : WalkState}
    (hA : containsNoreply c.authorEmail = false → Q (mkAuthorRow repo url c))
    (hC : containsNoreply c.committerEmail = false →
      Q (mkCommitterRow repo url c))
    (h : WalkInv Q s) : WalkInv Q (processCommit repo url c s) :=
  maybeWrite_inv (rowTuple_mkCommitterRow repo url c) hC
    (maybeWrite_inv (rowTuple_mkAuthorRow repo url c) hA h)

theorem walkCommits_inv {Q : CsvRow → Prop} {repo : Repo} {url : String}
    {s : WalkState} {cs : List Commit}
    (hQ : ∀ c ∈ cs,
      (containsNoreply c.authorEmail = false → Q (mkAuthorRow repo url c)) ∧
      (containsNoreply c.committerEmail = false →
        Q (mkCommitterRow repo url c)))
    (h : WalkInv Q s) : WalkInv Q (walkCommits repo url cs s) := by
  induction cs generalizing s with
  | nil => exact h
  | cons c cs ih =>
    have hc := hQ c (List.mem_cons_self _ _)
    exact ih (fun d hd => hQ d (List.mem_cons_of_mem _ hd))
      (processCommit_inv hc.1 hc.2 h)

theorem walk_inv_start {Q : CsvRow → Prop} (repo : Repo)
    (commits : List Commit) (uc : List (String × String × String))
    (hQ : ∀ c ∈ commits,
      (containsNoreply c.authorEmail = false →
        Q (mkAuthorRow repo (commitsUrl repo) c)) ∧
      (containsNoreply c.committerEmail = false →
        Q (mkCommitterRow repo (commitsUrl repo) c))) :
    WalkInv Q (get_emails_from_github_commits repo commits uc) := by
  refine walkCommits_inv hQ ⟨?_, ?_, ?_, ?_⟩
  · intro r hr; cases hr
  · intro p hp; cases hp
  · exact List.nodup_nil
  · intro r hr; cases hr

theorem maybeWrite_repoEmails_mono {b : Bool} {p q : String × String × String}
    {row : CsvRow} {s : WalkState} (h : q ∈ s.repoEmails) :
    q ∈ (maybeWrite b p row s).repoEmails := by
  unfold maybeWrite
  split
  · exact List.mem_cons_of_mem _ h
  · exact h

theorem maybeWrite_self_mem {b : Bool} {p : String × String × String}
    {row : CsvRow} {s : WalkState} (hb : b = false) :
    p ∈ (maybeWrite b p row s).repoEmails := by
  unfold maybeWrite
  split
  case isTrue => exact List.mem_cons_self _ _
  case isFalse hc =>
    rcases not_and_or.1 hc with hc | hc
    · exact absurd hb hc
    · exact not_not.1 hc

theorem processCommit_repoEmails_mono {repo : Repo} {url : String}
    {c : Commit} {q : String × String × String} {s : WalkState}
    (h : q ∈ s.repoEmails) :
    q ∈ (processCommit repo url c s).repoEmails :=
  maybeWrite_repoEmails_mono (maybeWrite_repoEmails_mono h)

theorem processCommit_authorPair_mem {repo : Repo} {url : String}
    {c : Commit} {s : WalkState}
    (hb : containsNoreply c.authorEmail = false) :
    authorPair c ∈ (processCommit repo url c s).repoEmails :=
  maybeWrite_repoEmails_mono (maybeWrite_self_mem hb)

theorem processCommit_committerPair_mem {repo : Repo} {url : String}
    {c : Commit} {s : WalkState}
    (hb : containsNoreply c.committerEmail = false) :
    committerPair c ∈ (processCommit repo url c s).repoEmails :=
  maybeWrite_self_mem hb

theorem walkCommits_repoEmails_mono {repo : Repo} {url : String}
    {q : String × String × String} {cs : List Commit} {s : WalkState}
    (h : q ∈ s.repoEmails) :
    q ∈ (walkCommits repo url cs s).repoEmails := by
  induction cs generalizing s with
  | nil => exact h
  | cons c cs ih => exact ih (processCommit_repoEmails_mono h)

theorem walkCommits_authorPair_mem {repo : Repo} {url : String}
    {c : Commit} {cs : List Commit} {s : WalkState} (hc : c ∈ cs)
    (hb : containsNoreply c.authorEmail = false) :
    authorPair c ∈ (walkCommits repo url cs s).repoEmails := by
  induction cs generalizing s with
  | nil => cases hc
  | cons d ds ih =>
    rw [walkCommits]
    rcases List.mem_cons.1 hc with rfl | hc
    · exact walkCommits_repoEmails_mono (processCommit_authorPair_mem hb)
    · exact ih hc

theorem walkCommits_committerPair_mem {repo : Repo} {url : String}
    {c : Commit} {cs : List Commit} {s : WalkState} (hc : c ∈ cs)
    (hb : containsNoreply c.committerEmail = false) :
    committerPair c ∈ (walkCommits repo url cs s).repoEmails := by
  induction cs generalizing s with
  | nil => cases hc
  | cons d ds ih =>
    rw [walkCommits]
    rcases List.mem_cons.1 hc with rfl | hc
    · exact walkCommits_repoEmails_mono (processCommit_committerPair_mem hb)
    · exact ih hc

theorem maybeWrite_commitUsernames (b : Bool) (p : String × String × String)
    (row : CsvRow) (s : WalkState) :
    (maybeWrite b p row s).commitUsernames = s.commitUsernames := by
  unfold maybeWrite
  split <;> rfl

theorem processCommit_commitUsernames (repo : Repo) (url : String)
    (c : Commit) (s : WalkState) :
    (processCommit repo url c s).commitUsernames =
      s.commitUsernames ++ c.authorLogin.toList := by
  unfold processCommit
  rw [maybeWrite_commitUsernames, maybeWrite_commitUsernames]

theorem walkCommits_commitUsernames (repo : Repo) (url : String)
    (cs : List Commit) (s : WalkState) :
    (walkCommits repo url cs s).commitUsernames =
      s.commitUsernames ++ cs.filterMap (fun c => c.authorLogin) := by
  induction cs generalizing s with
  | nil => simp [walkCommits]
  | cons c cs ih =>
    rw [walkCommits, ih, processCommit_commitUsernames, List.append_assoc,
      List.filterMap_cons]
    cases h : c.authorLogin <;> simp [Option.toList]

theorem maybeWrite_rows_cases {b : Bool} {p : String × String × String}
    {row r : CsvRow} {s : WalkState}
    (h : r ∈ (maybeWrite b p row s).rows) : r ∈ s.rows ∨ r = row := by
  unfold maybeWrite at h
  split at h
  · rcases List.mem_append.1 h with h | h
    · exact Or.inl h
    · exact Or.inr (List.mem_singleton.1 h)
  · exact Or.inl h

theorem processCommit_rows_cases {repo : Repo} {url : String} {c : Commit}
    {r : CsvRow} {s : WalkState}
    (h : r ∈ (processCommit repo url c s).rows) :
    r ∈ s.rows ∨ r = mkAuthorRow repo url c ∨ r = mkCommitterRow repo url c := by
  rcases maybeWrite_rows_cases h with h | h
  · rcases maybeWrite_rows_cases h with h | h
    · exact Or.inl h
    · exact Or.inr (Or.inl h)
  · exact Or.inr (Or.inr h)

theorem walkCommits_rows_cases {repo : Repo} {url : String}
    {cs : List Commit} {r : CsvRow} {s : WalkState}
    (h : r ∈ (walkCommits repo url cs s).rows) :
    r ∈ s.rows ∨ ∃ c ∈ cs,
      r = mkAuthorRow repo url c ∨ r = mkCommitterRow repo url c := by
  induction cs generalizing s with
  | nil => exact Or.inl h
  | cons c cs ih =>
    rcases ih h with h | ⟨d, hd, hr⟩
    · rcases processCommit_rows_cases h with h | h
      · exact Or.inl h
      · exact Or.inr ⟨c, List.mem_cons_self _ _, h⟩
    · exact Or.inr ⟨d, List.mem_cons_of_mem _ hd, hr⟩

theorem get_repositories_for_user_eq (account : String) :
    ∀ pages : List (List RepoEntry),
      get_repositories_for_user account pages =
        pages.flatten.map (projectRepo account)
  | [] => rfl
  | page :: rest => by
    rw [get_repositories_for_user, get_repositories_for_user_eq account rest,
      List.flatten_cons, List.map_append]

theorem get_repositories_for_org_eq (account : String) :
    ∀ pages : List (List RepoEntry),
      get_repositories_for_org account pages =
        pages.flatten.map (projectRepo account)
  | [] => rfl
  | page :: rest => by
    rw [get_repositories_for_org, get_repositories_for_org_eq account rest,
      List.flatten_cons, List.map_append]

/-- C4: the repository listers follow the `next` link from page to page
until it is absent and return the concatenation of all pages' entries in
page order, each projected to a `Repo` record whose `owner` is the queried
account name; in particular 3 pages of 30 entries each yield 90 records. -/
theorem claim_C4_pagination (account : String)
    (pages : List (List RepoEntry)) :
    get_repositories_for_user account pages =
      pages.flatten.map (projectRepo account) ∧
    get_repositories_for_org account pages =
      pages.flatten.map (projectRepo account) ∧
    (∀ r ∈ get_repositories_for_user account pages, r.owner = account) ∧
    ((pages.length = 3 ∧ ∀ p ∈ pages, p.length = 30) →
      (get_repositories_for_user account pages).length = 90 ∧
      (get_repositories_for_org account pages).length = 90) := by
  refine ⟨get_repositories_for_user_eq account pages,
    get_repositories_for_org_eq account pages, ?_, ?_⟩
  · intro r hr
    rw [get_repositories_for_user_eq] at hr
    obtain ⟨e, _, rfl⟩ := List.mem_map.1 hr
    rfl
  · rintro ⟨h3, h30⟩
    have hmap : pages.map List.length = List.replicate 3 30 := by
      rw [List.eq_replicate_iff]
      refine ⟨by simp [h3], ?_⟩
      intro b hb
      obtain ⟨p, hp, rfl⟩ := List.mem_map.1 hb
      exact h30 p hp
    constructor
    · rw [get_repositories_for_user_eq, List.length_map,
        List.length_flatten, hmap]
      rfl
    · rw [get_repositories_for_org_eq, List.length_map,
        List.length_flatten, hmap]
      rfl

/-- Witness for C4 at a concrete input: 3 pages of 30 identical entries
produce 90 records. -/
theorem claim_C4_pagination_witness :
    (get_repositories_for_user "acme"
      (List.replicate 3 (List.replicate 30
        { name := "r", html_url := "u", description := none }))).length = 90 := by
  have h := (claim_C4_pagination "acme"
      (List.replicate 3 (List.replicate 30
        { name := "r", html_url := "u", description := none }))).2.2.2
  refine (h ⟨rfl, ?_⟩).1
  intro p hp
  rw [List.eq_of_mem_replicate hp, List.length_replicate]

/-- C5: the token generator yields the tokens in input order and cycles
with period `n = tl.length`: the `(k+n)`-th yield equals the `k`-th, and
the `k`-th yield is the token at index `k % n`. -/
theorem claim_C5_token_cycle (tl : List String) (k : Nat) (h : tl ≠ []) :
    token_generator tl (k + tl.length) = token_generator tl k ∧
    ∃ hk : k % tl.length < tl.length,
      token_generator tl k = some (tl.get ⟨k % tl.length, hk⟩) := by
  have hlen : 0 < tl.length := List.length_pos.2 h
  constructor
  · unfold token_generator
    rw [Nat.add_mod_right]
  · refine ⟨Nat.mod_lt _ hlen, ?_⟩
    exact List.get?_eq_get _

/-- Witness for C5 at a concrete input: for a 3-token list the 4th call
(index 3) returns the same token as the 1st call (index 0). -/
theorem claim_C5_token_cycle_witness :
    token_generator ["t1", "t2", "t3"] (0 + 3) =
      token_generator ["t1", "t2", "t3"] 0 :=
  (claim_C5_token_cycle ["t1", "t2", "t3"] 0 (by decide)).1

/-- C9: with `--depth 0` the recursive expander is never entered (guarded
by `args.depth > 0`), so a `--user` run issues exactly the initial
account's repository-listing fetch and the commit-listing fetches of that
account's own repositories, and nothing more. -/
theorem claim_C9_depth_zero (w : World) (user : String) :
    mainExtraFetches w user 0 = [] ∧
    mainFetchesUserMode w user 0 =
      FetchReq.repoList user :: walkAllFetches (w.userRepos user) := by
  constructor
  · rfl
  · simp [mainFetchesUserMode, mainExtraFetches]

/-- C1: within one repository walk, the identity tuples of the written
rows are duplicate-free — a tuple equal to an already seen one writes no
second row — and the first non-noreply occurrence of a tuple does write
one: every author or committer pair with a clean email shows up among the
written tuples. -/
theorem claim_C1_per_repo_dedup (repo : Repo) (commits : List Commit)
    (uc : List (String × String × String)) :
    ((get_emails_from_github_commits repo commits uc).rows.map rowTuple).Nodup ∧
    (∀ c ∈ commits, containsNoreply c.authorEmail = false →
      authorPair c ∈
        (get_emails_from_github_commits repo commits uc).rows.map rowTuple) ∧
    (∀ c ∈ commits, containsNoreply c.committerEmail = false →
      committerPair c ∈
        (get_emails_from_github_commits repo commits uc).rows.map rowTuple) := by
  have hinv := walk_inv_start (Q := fun _ => True) repo commits uc
    (fun c _ => ⟨fun _ => trivial, fun _ => trivial⟩)
  obtain ⟨h1, h2, h3, _⟩ := hinv
  refine ⟨h3, ?_, ?_⟩
  · intro c hc hb
    have hm : authorPair c ∈
        (get_emails_from_github_commits repo commits uc).repoEmails := by
      unfold get_emails_from_github_commits
      exact walkCommits_authorPair_mem hc hb
    obtain ⟨r, hr, hrt⟩ := h2 _ hm
    exact List.mem_map.2 ⟨r, hr, hrt⟩
  · intro c hc hb
    have hm : committerPair c ∈
        (get_emails_from_github_commits repo commits uc).repoEmails := by
      unfold get_emails_from_github_commits
      exact walkCommits_committerPair_mem hc hb
    obtain ⟨r, hr, hrt⟩ := h2 _ hm
    exact List.mem_map.2 ⟨r, hr, hrt⟩

/-- Witness for C1 at a concrete input: walking two identical commits,
the written tuples are duplicate-free and the author tuple was written. -/
theorem claim_C1_per_repo_dedup_witness :
    ((get_emails_from_github_commits sampleRepo [sampleCommit, sampleCommit]
      []).rows.map rowTuple).Nodup ∧
    authorPair sampleCommit ∈
      (get_emails_from_github_commits sampleRepo [sampleCommit, sampleCommit]
        []).rows.map rowTuple :=
  ⟨(claim_C1_per_repo_dedup sampleRepo [sampleCommit, sampleCommit] []).1,
   (claim_C1_per_repo_dedup sampleRepo [sampleCommit, sampleCommit] []).2.1
     sampleCommit (by decide) (by decide)⟩

/-- C2: no written row's email contains the substring `"noreply"`: both
write branches are guarded by `'noreply' not in email`. -/
theorem claim_C2_no_noreply (repo : Repo) (commits : List Commit)
    (uc : List (String × String × String)) (r : CsvRow)
    (hr : r ∈ (get_emails_from_github_commits repo commits uc).rows) :
    containsNoreply r.email = false := by
  have hinv := walk_inv_start (Q := fun r => containsNoreply r.email = false)
    repo commits uc ?_
  · exact hinv.2.2.2 r hr
  · intro c _
    exact ⟨fun h => h, fun h => h⟩

/-- Witness for C2 at a concrete input: the author row written for
`sampleCommit` has a noreply-free email. -/
theorem claim_C2_no_noreply_witness :
    containsNoreply
      (mkAuthorRow sampleRepo (commitsUrl sampleRepo) sampleCommit).email =
      false :=
  claim_C2_no_noreply sampleRepo [sampleCommit] []
    (mkAuthorRow sampleRepo (commitsUrl sampleRepo) sampleCommit) (by decide)

theorem mkAuthorRow_role (repo : Repo) (url : String) (c : Commit) :
    ((mkAuthorRow repo url c).role = "Owner" ∨
      (mkAuthorRow repo url c).role = "Contributor") ∧
    ((mkAuthorRow repo url c).role = "Owner" ↔
      pyLower (mkAuthorRow repo url c).ghUsername = pyLower repo.owner) := by
  unfold mkAuthorRow
  dsimp only
  split
  case isTrue h => exact ⟨Or.inl rfl, iff_of_true rfl h⟩
  case isFalse h => exact ⟨Or.inr rfl, iff_of_false (by decide) h⟩

theorem mkCommitterRow_role (repo : Repo) (url : String) (c : Commit) :
    ((mkCommitterRow repo url c).role = "Owner" ∨
      (mkCommitterRow repo url c).role = "Contributor") ∧
    ((mkCommitterRow repo url c).role = "Owner" ↔
      pyLower (mkCommitterRow repo url c).ghUsername = pyLower repo.owner) := by
  unfold mkCommitterRow
  dsimp only
  split
  case isTrue h => exact ⟨Or.inl rfl, iff_of_true rfl h⟩
  case isFalse h => exact ⟨Or.inr rfl, iff_of_false (by decide) h⟩

/-- C3 counterexample: the claim `Role = "Owner" iff login or display
name case-insensitively equals the owner` is false.  The commit with
author login `bob` and author display name `Alice` in a repository owned
by `alice` is written with role `Contributor` although its display name
equals the owner case-insensitively: the code compares only the login
(gitemails.py line 126), never the display name. -/
theorem claim_C3_counterexample : ¬ roleClaim := by
  intro h
  have hmem : mkAuthorRow sampleRepo (commitsUrl sampleRepo)
      sampleCommitNameAlice ∈
      (get_emails_from_github_commits sampleRepo [sampleCommitNameAlice]
        []).rows := by decide
  have hr := h sampleRepo [sampleCommitNameAlice] [] _ hmem
  have hOwner : (mkAuthorRow sampleRepo (commitsUrl sampleRepo)
      sampleCommitNameAlice).role = "Owner" :=
    hr.2 (Or.inr (by decide))
  exact absurd hOwner (by decide)

/-- C3 amended: the Role column is `"Owner"` exactly when the row's
`GH Username` column — the author's login-or-`"Not Found"` for author
rows, the committer's display name for committer rows — equals the
repository owner case-insensitively, and `"Contributor"` otherwise; the
author's display name is not consulted. -/
theorem claim_C3_amended_role (repo : Repo) (commits : List Commit)
    (uc : List (String × String × String)) (r : CsvRow)
    (hr : r ∈ (get_emails_from_github_commits repo commits uc).rows) :
    (r.role = "Owner" ∨ r.role = "Contributor") ∧
    (r.role = "Owner" ↔ pyLower r.ghUsername = pyLower repo.owner) := by
  have hinv := walk_inv_start
    (Q := fun r => (r.role = "Owner" ∨ r.role = "Contributor") ∧
      (r.role = "Owner" ↔ pyLower r.ghUsername = pyLower repo.owner))
    repo commits uc ?_
  · exact hinv.2.2.2 r hr
  · intro c _
    exact ⟨fun _ => mkAuthorRow_role repo (commitsUrl repo) c,
      fun _ => mkCommitterRow_role repo (commitsUrl repo) c⟩

/-- Witness for the amended C3 at a concrete input. -/
theorem claim_C3_amended_role_witness :
    ((mkAuthorRow sampleRepo (commitsUrl sampleRepo) sampleCommit).role =
        "Owner" ∨
      (mkAuthorRow sampleRepo (commitsUrl sampleRepo) sampleCommit).role =
        "Contributor") ∧
    ((mkAuthorRow sampleRepo (commitsUrl sampleRepo) sampleCommit).role =
        "Owner" ↔
      pyLower (mkAuthorRow sampleRepo (commitsUrl sampleRepo)
          sampleCommit).ghUsername = pyLower sampleRepo.owner) :=
  claim_C3_amended_role sampleRepo [sampleCommit] []
    (mkAuthorRow sampleRepo (commitsUrl sampleRepo) sampleCommit) (by decide)

/-- C6 counterexample: the claim that the fetcher `waits the Retry-After
header's value when that header is present` is false.  On a rate-limited
403 carrying `Retry-After: 120` followed by a 200, the wait performed is
60 seconds, not 120: the code never reads `Retry-After` (gitemails.py
lines 32-44 always `time.sleep(60)`). -/
theorem claim_C6_counterexample : ¬ retryAfterClaim := by
  intro h
  have h2 := h [] 0
    { status := 403, hasRateLimitReset := true,
      rateLimitRemaining := some "0", retryAfter := some 120 }
    [{ status := 200, hasRateLimitReset := false,
       rateLimitRemaining := none, retryAfter := none }]
    120 rfl rfl rfl
  have h3 : ((get_api_response [] 0
      [{ status := 403, hasRateLimitReset := true,
         rateLimitRemaining := some "0", retryAfter := some 120 },
       { status := 200, hasRateLimitReset := false,
         rateLimitRemaining := none, retryAfter := none }]).2.1).head? =
      some 60 := by decide
  rw [h3] at h2
  exact absurd h2 (by decide)

/-- C6 amended: when every non-200 response is a 403 with the
`X-RateLimit-Reset` header present and `X-RateLimit-Remaining` equal to
`"0"`, the fetcher never fails: it never raises an HTTP error, returns
only a 200 response, waits a fixed 60 seconds before every retry — the
`Retry-After` header is never consulted — and draws one token per attempt
from the rotator in round-robin order when tokens exist.  (A 403 without
the `X-RateLimit-Reset` header is instead fatal via
`raise_for_status`.) -/
theorem claim_C6_amended_rate_limit (tokens : List String) (pos : Nat)
    (responses : List ApiResponse)
    (h : ∀ r ∈ responses, r.status = 200 ∨ rateLimited r) :
    (∀ st, (get_api_response tokens pos responses).1 ≠
      FetchOutcome.httpError st) ∧
    (∀ r, (get_api_response tokens pos responses).1 = FetchOutcome.ok r →
      r.status = 200) ∧
    ((get_api_response tokens pos responses).2.1 =
      List.replicate (get_api_response tokens pos responses).2.1.length 60) ∧
    ((get_api_response tokens pos responses).2.2 =
      (List.range' pos
        (get_api_response tokens pos responses).2.2.length).map
        (token_generator tokens)) := by
  induction responses generalizing pos with
  | nil =>
    exact ⟨(fun st hst => nomatch hst), (fun r hr => nomatch hr), rfl, rfl⟩
  | cons r rest ih =>
    have hr := h r (List.mem_cons_self _ _)
    have hrest := fun d hd => h d (List.mem_cons_of_mem _ hd)
    obtain ⟨ih1, ih2, ih3, ih4⟩ := ih (pos + 1) hrest
    rcases hr with h200 | ⟨h403, hreset, hrem⟩
    · rw [get_api_response]
      simp only [h200, if_pos rfl]
      refine ⟨(fun st hst => nomatch hst), ?_, rfl, ?_⟩
      · intro q hq
        cases hq
        exact h200
      · rfl
    · have hne : ¬ r.status = 200 := by rw [h403]; decide
      rw [get_api_response]
      simp only [if_neg hne, if_pos (And.intro h403 (And.intro hreset hrem))]
      refine ⟨ih1, ih2, ?_, ?_⟩
      · rw [List.length_cons, List.replicate_succ]
        exact congrArg _ ih3
      · rw [List.length_cons, List.range'_succ, List.map_cons]
        exact congrArg _ ih4

/-- Witness for the amended C6 at a concrete input: one rate-limited 403
followed by a 200, with two tokens configured, sleeps exactly one fixed
60-second wait. -/
theorem claim_C6_amended_rate_limit_witness :
    (get_api_response ["t1", "t2"] 0
      [{ status := 403, hasRateLimitReset := true,
         rateLimitRemaining := some "0", retryAfter := none },
       { status := 200, hasRateLimitReset := false,
         rateLimitRemaining := none, retryAfter := none }]).2.1 =
      List.replicate (get_api_response ["t1", "t2"] 0
        [{ status := 403, hasRateLimitReset := true,
           rateLimitRemaining := some "0", retryAfter := none },
         { status := 200, hasRateLimitReset := false,
           rateLimitRemaining := none, retryAfter := none }]).2.1.length 60 :=
  (claim_C6_amended_rate_limit ["t1", "t2"] 0
    [{ status := 403, hasRateLimitReset := true,
       rateLimitRemaining := some "0", retryAfter := none },
     { status := 200, hasRateLimitReset := false,
       rateLimitRemaining := none, retryAfter := none }]
    (by decide)).2.2.1

/-- C7 counterexample: the returned `commit_usernames` list is not
duplicate-free.  Walking two commits by the same author login `bob`
returns `["bob", "bob"]`: the code appends on every commit (gitemails.py
line 114) with no deduplication inside the walker. -/
theorem claim_C7_counterexample : ¬ distinctUsernamesClaim := by
  intro h
  have h2 := (h sampleRepo [sampleCommit, sampleCommit] []).2
  have he : (get_emails_from_github_commits sampleRepo
      [sampleCommit, sampleCommit] []).commitUsernames = ["bob", "bob"] := by
    decide
  rw [he] at h2
  exact (by decide : ¬ (["bob", "bob"] : List String).Nodup) h2

/-- C7 amended: the commit walker returns the commit-author logins in
observation order, one entry per commit whose `commit['author']['login']`
is present — so every observed author login appears, but a login observed
in several commits appears several times; deduplication happens only in
the callers, which wrap the result in a `set`. -/
theorem claim_C7_amended_usernames (repo : Repo) (commits : List Commit)
    (uc : List (String × String × String)) :
    (get_emails_from_github_commits repo commits uc).commitUsernames =
      commits.filterMap (fun c => c.authorLogin) ∧
    (∀ c ∈ commits, ∀ l, c.authorLogin = some l →
      l ∈ (get_emails_from_github_commits repo commits uc).commitUsernames) := by
  have he : (get_emails_from_github_commits repo commits uc).commitUsernames =
      commits.filterMap (fun c => c.authorLogin) := by
    unfold get_emails_from_github_commits
    rw [walkCommits_commitUsernames]
    exact List.nil_append _
  refine ⟨he, ?_⟩
  intro c hc l hl
  rw [he]
  exact List.mem_filterMap.2 ⟨c, hc, hl⟩

/-- Witness for the amended C7 at a concrete input: walking the same
commit twice returns its author login twice, and the observed login
`bob` is in the returned list. -/
theorem claim_C7_amended_usernames_witness :
    (get_emails_from_github_commits sampleRepo [sampleCommit, sampleCommit]
      []).commitUsernames =
      [sampleCommit, sampleCommit].filterMap (fun c => c.authorLogin) ∧
    "bob" ∈ (get_emails_from_github_commits sampleRepo
      [sampleCommit, sampleCommit] []).commitUsernames :=
  ⟨(claim_C7_amended_usernames sampleRepo [sampleCommit, sampleCommit] []).1,
   (claim_C7_amended_usernames sampleRepo [sampleCommit, sampleCommit] []).2
     sampleCommit (by decide) "bob" (by decide)⟩

/-- C8 counterexample: the claim that every written row's `GH Username`
column holds a GitHub login or `"Not Found"` is false.  Walking one
commit whose committer display name is the free text `Jane Doe` writes a
committer row whose `GH Username` column is `"Jane Doe"`, which is
neither `"Not Found"` nor any author login of the walk: the code fills
the committer row's username slot with
`commit['commit']['committer']['name']` (gitemails.py lines 118-120). -/
theorem claim_C8_counterexample : ¬ usernameFieldClaim := by
  intro h
  have hmem : mkCommitterRow sampleRepo (commitsUrl sampleRepo)
      sampleCommitJane ∈
      (get_emails_from_github_commits sampleRepo [sampleCommitJane]
        []).rows := by decide
  rcases h sampleRepo [sampleCommitJane] [] _ hmem with h1 | ⟨c, hc, hl⟩
  · exact absurd h1 (by decide)
  · rw [List.mem_singleton.1 hc] at hl
    exact absurd hl (by decide)

/-- C8 amended: every written row comes from a walked commit; author rows
carry the author's GitHub login or `"Not Found"` in the `GH Username`
column together with the author's display name and email, while committer
rows carry the committer's display name — not a login — in both the
`GH Username` and `Name` columns, with the committer's email. -/
theorem claim_C8_amended_username_field (repo : Repo) (commits : List Commit)
    (uc : List (String × String × String)) (r : CsvRow)
    (hr : r ∈ (get_emails_from_github_commits repo commits uc).rows) :
    ∃ c ∈ commits,
      (r.typ = "Commit Author" ∧ r.ghUsername = authorGhUsername c ∧
        r.name = c.authorName ∧ r.email = c.authorEmail) ∨
      (r.typ = "Commit Committer" ∧ r.ghUsername = c.committerName ∧
        r.name = c.committerName ∧ r.email = c.committerEmail) := by
  unfold get_emails_from_github_commits at hr
  rcases walkCommits_rows_cases hr with h | ⟨c, hc, hform⟩
  · cases h
  · refine ⟨c, hc, ?_⟩
    rcases hform with rfl | rfl
    · exact Or.inl ⟨rfl, rfl, rfl, rfl⟩
    · exact Or.inr ⟨rfl, rfl, rfl, rfl⟩

/-- Witness for the amended C8 at a concrete input: the committer row of
`sampleCommitJane` is accounted for by that commit. -/
theorem claim_C8_amended_username_field_witness :
    ∃ c ∈ [sampleCommitJane],
      ((mkCommitterRow sampleRepo (commitsUrl sampleRepo)
          sampleCommitJane).typ = "Commit Author" ∧
        (mkCommitterRow sampleRepo (commitsUrl sampleRepo)
          sampleCommitJane).ghUsername = authorGhUsername c ∧
        (mkCommitterRow sampleRepo (commitsUrl sampleRepo)
          sampleCommitJane).name = c.authorName ∧
        (mkCommitterRow sampleRepo (commitsUrl sampleRepo)
          sampleCommitJane).email = c.authorEmail) ∨
      ((mkCommitterRow sampleRepo (commitsUrl sampleRepo)
          sampleCommitJane).typ = "Commit Committer" ∧
        (mkCommitterRow sampleRepo (commitsUrl sampleRepo)
          sampleCommitJane).ghUsername = c.committerName ∧
        (mkCommitterRow sampleRepo (commitsUrl sampleRepo)
          sampleCommitJane).name = c.committerName ∧
        (mkCommitterRow sampleRepo (commitsUrl sampleRepo)
          sampleCommitJane).email = c.committerEmail) :=
  claim_C8_amended_username_field sampleRepo [sampleCommitJane] []
    (mkCommitterRow sampleRepo (commitsUrl sampleRepo) sampleCommitJane)
    (by decide)

/-- C10: in `--org` mode the data file receives the phase contents twice —
a header row then the per-repository deduplicated rows, appended once by
the org block and once again by the shared loop over the same repository
list — so every row occurs exactly twice as often as in one phase, and
every organization repository's commit listing is fetched at least
twice. -/
theorem claim_C10_org_double_walk (w : World) (org : String) :
    (mainOrgMode w org).dataFile = orgPhaseCells w org ++ orgPhaseCells w org ∧
    (∀ row : List String,
      ((mainOrgMode w org).dataFile).count row =
        2 * (orgPhaseCells w org).count row) ∧
    (∀ repo ∈ w.orgRepos org,
      2 ≤ ((mainOrgMode w org).fetches).count
        (FetchReq.commitList repo.owner repo.name)) := by
  refine ⟨rfl, ?_, ?_⟩
  · intro row
    have hdf : (mainOrgMode w org).dataFile =
        orgPhaseCells w org ++ orgPhaseCells w org := rfl
    rw [hdf, List.count_append, two_mul]
  · intro repo hrepo
    have hf : (mainOrgMode w org).fetches =
        FetchReq.repoList org :: (walkAllFetches (w.orgRepos org) ++
          walkAllFetches (w.orgRepos org)) := rfl
    have hm : FetchReq.commitList repo.owner repo.name ∈
        walkAllFetches (w.orgRepos org) :=
      List.mem_map.2 ⟨repo, hrepo, rfl⟩
    have h1 : 0 < (walkAllFetches (w.orgRepos org)).count
        (FetchReq.commitList repo.owner repo.name) :=
      List.count_pos_iff.2 hm
    rw [hf, List.count_cons, List.count_append]
    have h2 : 2 ≤ (walkAllFetches (w.orgRepos org)).count
        (FetchReq.commitList repo.owner repo.name) +
        (walkAllFetches (w.orgRepos org)).count
          (FetchReq.commitList repo.owner repo.name) := by omega
    exact le_trans h2 (Nat.le_add_right _ _)

/-- Witness for C10 at a concrete input: in the sample world the single
organization repository's commit listing is fetched at least twice. -/
theorem claim_C10_org_double_walk_witness :
    2 ≤ ((mainOrgMode sampleWorld "alice").fetches).count
      (FetchReq.commitList sampleRepo.owner sampleRepo.name) :=
  (claim_C10_org_double_walk sampleWorld "alice").2.2 sampleRepo (by decide)

end GitEmails
